import Mathlib

/-!
Shallow embedding of `aleks.py`, a script that ingests tab-separated ALEKS
placement-report rows and aggregates them into Student / Cohort /
CohortReporter objects with filtered statistical queries.

Python-level behaviour is modelled explicitly:
- fallible Python operations (list indexing, dict lookup, `int(...)`,
  `max([])`, subscripting an object with no `__getitem__`) return
  `Except String _`, with the error string naming the Python exception;
- Python dicts (which preserve insertion order and keep the original
  position when a key is re-assigned) are modelled as association lists
  with `dictHas` / `dictGet` / `dictInsert`;
- Python integers are `Int`; `%` on a positive modulus is `Int.emod` and
  `//` on a positive divisor is `Int.ediv`.
-/

/-- Python `str.split(sep)` for a single-character separator, accumulator on
the current field. -/
def splitCharAux (sep : Char) : List Char → List Char → List (List Char)
  | [], acc => [acc.reverse]
  | c :: t, acc =>
    if c = sep then acc.reverse :: splitCharAux sep t []
    else splitCharAux sep t (c :: acc)

/-- Python `s.split(sep)` for a single-character separator. -/
def pySplit (s : String) (sep : Char) : List String :=
  (splitCharAux sep s.data []).map (fun l => String.mk l)

/-- Python `s.lower()` (inputs are ASCII). -/
def pyLower (s : String) : String :=
  String.mk (s.data.map Char.toLower)

/-- Python `s.replace(c, "")` for a one-character pattern: removes every
occurrence of the character. Used for the `.replace('%','')` and
`.replace('"','')` calls in the source. -/
def pyStripChar (s : String) (c : Char) : String :=
  String.mk (s.data.filter (fun a => a ≠ c))

/-- Helper for substring containment: whether `pat` occurs contiguously in
the second argument. -/
def containsSubAux (pat : List Char) : List Char → Bool
  | [] => pat.isEmpty
  | c :: t => pat.isPrefixOf (c :: t) || containsSubAux pat t

/-- Python `pat in hay` for strings: contiguous substring test. -/
def strContains (hay pat : String) : Bool :=
  containsSubAux pat.data hay.data

/-- Numeric value of a decimal digit character. -/
def digVal (c : Char) : Option Nat :=
  if c.isDigit then some (c.toNat - 48) else none

/-- Parses a nonempty all-digit character list as a natural number. -/
def natOfDigits (ds : List Char) : Option Nat :=
  if ds.isEmpty then none
  else ds.foldl (fun acc c => do
    let a ← acc
    let d ← digVal c
    pure (10 * a + d)) (some 0)

/-- Python `int(s)`: optional sign followed by decimal digits; raises
`ValueError` otherwise. -/
def pyInt (s : String) : Except String Int :=
  match s.data with
  | '-' :: rest =>
    match natOfDigits rest with
    | some n => .ok (-(n : Int))
    | none => .error ("ValueError")
  | '+' :: rest =>
    match natOfDigits rest with
    | some n => .ok ((n : Int))
    | none => .error ("ValueError")
  | ds =>
    match natOfDigits ds with
    | some n => .ok ((n : Int))
    | none => .error ("ValueError")

/-- Python `row[i]` on a list: `IndexError` when out of range. -/
def pyIndex (row : List String) (i : Nat) : Except String String :=
  match row.get? i with
  | some s => .ok s
  | none => .error ("IndexError")

/-- Python `max(l)` for an integer list: `ValueError` on an empty list,
otherwise the maximum value. -/
def pyMax (l : List Int) : Except String Int :=
  match l with
  | [] => .error ("ValueError")
  | h :: t => .ok (t.foldl max h)

/-- Python dict membership `k in d` over the association-list model. -/
def dictHas {K V : Type} [DecidableEq K] (d : List (K × V)) (k : K) : Bool :=
  match d with
  | [] => false
  | p :: rest => if p.1 = k then true else dictHas rest k

/-- Python dict lookup `d[k]` (successful case) over the association-list
model. -/
def dictGet {K V : Type} [DecidableEq K] (d : List (K × V)) (k : K) : Option V :=
  match d with
  | [] => none
  | p :: rest => if p.1 = k then some p.2 else dictGet rest k

/-- Python dict assignment `d[k] = v`: replaces the value in place when the
key exists (keeping its position, as Python dicts do), else appends. -/
def dictInsert {K V : Type} [DecidableEq K] (d : List (K × V)) (k : K) (v : V) :
    List (K × V) :=
  match d with
  | [] => [(k, v)]
  | p :: rest => if p.1 = k then (k, v) :: rest else p :: dictInsert rest k v

/-- `date_group(date)` from `aleks.py`: converts an `"MM/DD/YYYY"` string to
a `(2-digit year, season ID)` tuple; season 0 = Summer (months ≤ 5),
1 = Fall (months 6-8), 2 = Spring of the next year (months ≥ 9). Raises
`ValueError` when the string does not split into exactly three fields or a
field is not an integer. The day is parsed but unused, as in the source. -/
def date_group (date : String) : Except String (Int × Int) :=
  match pySplit date '/' with
  | [ms, ds, ys] => do
    let m ← pyInt ms
    let _d ← pyInt ds
    let y ← pyInt ys
    if m ≤ 5 then .ok (y % 100, 0)
    else if m ≤ 8 then .ok (y % 100, 1)
    else .ok ((y + 1) % 100, 2)
  | _ => .error ("ValueError: date string must be in MM/DD/YYYY format")

/-- `class_group(cls)` from `aleks.py`: collapses a free-text class name
into a class ID via ordered substring checks (the first check, for
"no data", is on the raw string; all others are on the lowercased string,
exactly as in the source). -/
def class_group (cls : String) : Int :=
  if strContains cls ("no data") || decide (cls.length < 2) then -1
  else if strContains (pyLower cls) ("algebra")
      && !(strContains (pyLower cls) ("linear")) then 1
  else if strContains (pyLower cls) ("trigonometry") then 2
  else if strContains (pyLower cls) ("geometry") then 3
  else if strContains (pyLower cls) ("precalculus") then 4
  else if strContains (pyLower cls) ("calculus ii")
      || strContains (pyLower cls) ("calculus 2") then 6
  else if strContains (pyLower cls) ("calculus iii")
      || strContains (pyLower cls) ("calculus 3") then 7
  else if strContains (pyLower cls) ("calculus") then 5
  else if strContains (pyLower cls) ("statistics")
      || strContains (pyLower cls) ("probability") then 8
  else if strContains (pyLower cls) ("discrete") then 9
  else 0

/-- `cohort_to_int(year, season, base)` from `aleks.py`. -/
def cohort_to_int (year season base : Int) : Int :=
  3 * (year - base) + season

/-- `int_to_cohort(index, base)` from `aleks.py`; Python `//` and `%` with
the positive divisor 3 agree with Lean Int `/` and `%` (`ediv`/`emod`). -/
def int_to_cohort (index base : Int) : Int × Int :=
  (index / 3 + base, index % 3)

/-- The `Student` class from `aleks.py`. The `cohort` back-pointer is
omitted (it would make `Student` and `Cohort` mutually recursive and is
never consulted by any query); all other attributes are kept. -/
structure Student where
  name : String
  scores : List Int
  subject_scores : List (List Int)
  module : Int
  masteries : List (Int × Int)
  last_level : Int
  last_class : Int

/-- `Student(name, module=..., last_level=..., last_class=...)`: empty
storage attributes. -/
def Student.init (name : String) (module last_level last_class : Int) : Student :=
  { name := name, scores := [], subject_scores := [], module := module,
    masteries := [], last_level := last_level, last_class := last_class }

/-- `Student.log_attempt(score, subjects, mastery=...)`: appends the score
and subject list, and the mastery pair when it is not `None`. -/
def Student.log_attempt (s : Student) (score : Int) (subjects : List Int)
    (mastery : Option (Int × Int)) : Student :=
  { s with scores := s.scores ++ [score],
           subject_scores := s.subject_scores ++ [subjects],
           masteries := match mastery with
                        | some m => s.masteries ++ [m]
                        | none => s.masteries }

/-- `Student.best_score()` (the `subjects=False` branch):
`return max(self.scores)`. -/
def Student.best_score (s : Student) : Except String Int :=
  pyMax s.scores

/-- `Student.best_score(subjects=True)`:
`best = self.scores.index(max(self.scores))` followed by
`(self.scores[best], self.subject_scores[best])`. -/
def Student.best_score_subjects (s : Student) : Except String (Int × List Int) := do
  let m ← pyMax s.scores
  let best := s.scores.indexOf m
  match s.scores.get? best, s.subject_scores.get? best with
  | some a, some b => .ok (a, b)
  | _, _ => .error ("IndexError")

/-- `Student.last_score()` (the `subjects=False` branch):
`return self.scores[0]`, an `IndexError` when no attempts are recorded. -/
def Student.last_score (s : Student) : Except String Int :=
  match s.scores.get? 0 with
  | some a => .ok a
  | none => .error ("IndexError")

/-- The `Cohort` class from `aleks.py`: year, season, and the
insertion-ordered student dict keyed by name. -/
structure Cohort where
  year : Int
  season : Int
  students : List (String × Student)

/-- `Cohort.create_student(name, module=..., last_level=..., last_class=...)`:
unconditionally assigns a fresh `Student` into the student dict. -/
def Cohort.create_student (c : Cohort) (name : String)
    (module last_level last_class : Int) : Cohort :=
  { c with students :=
      dictInsert c.students name (Student.init name module last_level last_class) }

/-- `Cohort.update_student(name, score, subjects, mastery=...)`:
`self.students[name].log_attempt(...)`; a `KeyError` when the name is not
in the student dict. -/
def Cohort.update_student (c : Cohort) (name : String) (score : Int)
    (subjects : List Int) (mastery : Option (Int × Int)) : Except String Cohort :=
  match dictGet c.students name with
  | none => .error ("KeyError")
  | some s =>
    let s2 := s.log_attempt score subjects mastery
    .ok { c with students := dictInsert c.students name s2 }

/-- The guarded creation step of `CohortReporter.read_file` (and the spec
operation `upsert_student`): create the student only when the name is
unseen in this cohort, otherwise do nothing. -/
def Cohort.upsert_student (c : Cohort) (name : String)
    (module last_level last_class : Int) : Cohort :=
  if dictHas c.students name then c
  else c.create_student name module last_level last_class

/-- One student's filter test inside `Cohort.filter_students`: a defined
`last_level` / `last_class` filter must match exactly, and a defined
`cutoff` requires `best_score() >= cutoff` (evaluating `best_score` can
raise on a student with no attempts, as in the source). -/
def passFilters (s : Student) (last_level last_class cutoff : Option Int) :
    Except String Bool :=
  match last_level with
  | some lv => if s.last_level ≠ lv then .ok false else passFilters2 s last_class cutoff
  | none => passFilters2 s last_class cutoff
where
  passFilters2 (s : Student) (last_class cutoff : Option Int) : Except String Bool :=
    match last_class with
    | some lc => if s.last_class ≠ lc then .ok false else passFilters3 s cutoff
    | none => passFilters3 s cutoff
  passFilters3 (s : Student) (cutoff : Option Int) : Except String Bool :=
    match cutoff with
    | none => .ok true
    | some ct => do
      let b ← s.best_score
      .ok (decide (ct ≤ b))

/-- Loop of `Cohort.filter_students` over the student dict in insertion
order. -/
def filterStudentsAux (last_level last_class cutoff : Option Int) :
    List (String × Student) → Except String (List Student)
  | [] => .ok []
  | p :: rest => do
    let keep ← passFilters p.2 last_level last_class cutoff
    let tail ← filterStudentsAux last_level last_class cutoff rest
    .ok (if keep then p.2 :: tail else tail)

/-- `Cohort.filter_students(last_level=..., last_class=..., cutoff=...)`. -/
def Cohort.filter_students (c : Cohort) (last_level last_class cutoff : Option Int) :
    Except String (List Student) :=
  filterStudentsAux last_level last_class cutoff c.students

/-- `Cohort.best_scores(...)`:
`[s.best_score() for s in self.filter_students(...)]`. -/
def Cohort.best_scores (c : Cohort) (last_level last_class cutoff : Option Int) :
    Except String (List Int) := do
  let sl ← c.filter_students last_level last_class cutoff
  sl.mapM Student.best_score

/-- `Cohort.last_scores(...)`: the source body is
`[s.best_score() for s in self.filter_students(...)]` — it calls
`best_score`, not `last_score`, although its docstring promises the most
recent scores. -/
def Cohort.last_scores (c : Cohort) (last_level last_class cutoff : Option Int) :
    Except String (List Int) := do
  let sl ← c.filter_students last_level last_class cutoff
  sl.mapM Student.best_score

/-- The `CohortReporter` class from `aleks.py`: the cohort dict keyed by
`(year, season)` and the parallel global student-name / cohort-key lists. -/
structure CohortReporter where
  cohorts : List ((Int × Int) × Cohort)
  student_list : List String
  cohort_list : List (Int × Int)

/-- `CohortReporter()` with no file: empty containers. -/
def emptyReporter : CohortReporter :=
  { cohorts := [], student_list := [], cohort_list := [] }

/-- `CohortReporter.student_by_name(name)`: returns `None` when the name is
not on the student list; otherwise it evaluates
`self.cohorts[self.cohort_list[index]][name]`. The class `Cohort` defines
no `__getitem__`, so the final subscript raises `TypeError` whenever the
lookup gets that far. -/
def CohortReporter.student_by_name (r : CohortReporter) (name : String) :
    Except String (Option Student) :=
  if ¬ (name ∈ r.student_list) then .ok none
  else
    let index := r.student_list.indexOf name
    match r.cohort_list.get? index with
    | none => .error ("IndexError")
    | some ys =>
      match dictGet r.cohorts ys with
      | none => .error ("KeyError")
      | some _ => .error ("TypeError: Cohort object is not subscriptable")

/-- Lines 536-545 of `read_file`: module ID and optional mastery pair from
fields 35-37. The mastery pair is parsed whenever field 35 has length > 1,
regardless of whether the module text matched "precalculus"/"calculus". -/
def parseModuleMastery (row : List String) :
    Except String (Int × Option (Int × Int)) := do
  let f35 ← pyIndex row 35
  if f35.length > 1 then do
    let module : Int :=
      if strContains (pyLower f35) ("precalculus") then 0
      else if strContains (pyLower f35) ("calculus") then 1
      else -1
    let f36 ← pyIndex row 36
    let f37 ← pyIndex row 37
    let mi ← pyInt (pyStripChar f36 '%')
    let mf ← pyInt (pyStripChar f37 '%')
    .ok (module, some (mi, mf))
  else .ok (-1, none)

/-- Lines 547-555 of `read_file`: `(class ID, level ID)` from fields 41-42,
gathered only when field 41 has length > 1. -/
def parseClassLevel (row : List String) : Except String (Int × Int) := do
  let f41 ← pyIndex row 41
  if f41.length > 1 then do
    let level : Int :=
      if strContains (pyLower f41) ("high school") then 0
      else if strContains (pyLower f41) ("college") then 1
      else -1
    let f42 ← pyIndex row 42
    .ok (class_group f42, level)
  else .ok (-1, -1)

/-- Lines 523-525 of `read_file`: create a new `Cohort(ys[0], ys[1])` when
the key is not yet in the cohort dict. -/
def ensureCohort (r : CohortReporter) (ys : Int × Int) : CohortReporter :=
  if dictHas r.cohorts ys then r
  else { r with cohorts := dictInsert r.cohorts ys (Cohort.mk ys.1 ys.2 []) }

/-- Line 534 of `read_file`: the eleven subject scores at even fields
14-34, percent-stripped and parsed. -/
def readSubjects (row : List String) : Except String (List Int) :=
  (List.range 11).mapM (fun i => do
    let fi ← pyIndex row (14 + 2 * i)
    pyInt (pyStripChar fi '%'))

/-- Lines 557-571 of `read_file`: look up the cohort, create the student
only if the name is unseen in that cohort (also appending to the global
name and cohort lists), then log the attempt via `update_student`. -/
def routeAttempt (r1 : CohortReporter) (ys : Int × Int) (name : String)
    (score : Int) (subjects : List Int) (module : Int)
    (mastery : Option (Int × Int)) (cls level : Int) :
    Except String CohortReporter := do
  let c ← match dictGet r1.cohorts ys with
          | some c => Except.ok c
          | none => Except.error ("KeyError")
  let rc :=
    if dictHas c.students name then (r1, c)
    else ({ r1 with student_list := r1.student_list ++ [name],
                    cohort_list := r1.cohort_list ++ [ys] },
          c.create_student name module level cls)
  let c3 ← rc.2.update_student name score subjects mastery
  .ok { rc.1 with cohorts := dictInsert rc.1.cohorts ys c3 }

/-- The per-data-row body of `CohortReporter.read_file` (lines 519-571):
derive the cohort key from field 8, create the cohort if new, parse the
name / score / subject vector / module-mastery / class-level fields, then
route the attempt into the right cohort and student. -/
def processRow (r : CohortReporter) (row : List String) :
    Except String CohortReporter := do
  let f8 ← pyIndex row 8
  let ys ← date_group f8
  let r1 := ensureCohort r ys
  let f0 ← pyIndex row 0
  let name := pyStripChar f0 '"'
  let f12 ← pyIndex row 12
  let score ← pyInt (pyStripChar f12 '%')
  let subjects ← readSubjects row
  let mm ← parseModuleMastery row
  let cl ← parseClassLevel row
  routeAttempt r1 ys name score subjects mm.1 mm.2 cl.1 cl.2

/-- One line of `read_file` after the header: Python evaluates `line[0]`
(an `IndexError` on an empty string), skips lines not starting with a
double quote, and otherwise splits on tabs and processes the row. -/
def processLine (r : CohortReporter) (line : String) :
    Except String CohortReporter :=
  match line.data with
  | [] => .error ("IndexError")
  | ch :: _ => if ch ≠ '"' then .ok r else processRow r (pySplit line '\t')

/-- `CohortReporter.read_file` over the file's lines: the first line is
always skipped, the rest are folded through `processLine` (the progress
counters and printing are I/O only and are not modelled). -/
def read_file (lines : List String) : Except String CohortReporter :=
  match lines with
  | [] => .ok emptyReporter
  | _ :: rest => rest.foldlM processLine emptyReporter

/-- Joins fields with tab characters (inverse of the tab split), used to
build concrete input lines for the ingestion fixtures. -/
def tabJoinAux : List String → List Char
  | [] => []
  | [s] => s.data
  | s :: rest => s.data ++ ('\t' :: tabJoinAux rest)

/-- Joins a 44-field row into one tab-separated line. -/
def tabJoin (row : List String) : String :=
  String.mk (tabJoinAux row)

/-- A concrete 44-field data row in the report layout: field 0 the quoted
name, field 8 the end date, field 12 the overall score, the eleven even
fields 14-34 the subject scores, fields 35-37 the module text and the two
mastery percentages, fields 41-42 the level and class texts. -/
def testRow (name date score module lvl cls : String) : List String :=
  (List.range 44).map (fun i =>
    if i = 0 then name
    else if i = 8 then date
    else if i = 12 then score
    else if i % 2 = 0 && 14 ≤ i && i ≤ 34 then ("50%")
    else if i = 35 then module
    else if i = 36 then ("40%")
    else if i = 37 then ("80%")
    else if i = 41 then lvl
    else if i = 42 then cls
    else ("x"))

/-- Fixture for the `last_scores` check: one student with two attempts in
the same term, scored 75 then 90 in file order. -/
def c1Lines : List String :=
  [("header"),
   tabJoin (testRow ("\"carol\"") ("7/1/2021") ("75%") ("-") ("-") ("")),
   tabJoin (testRow ("\"carol\"") ("7/1/2021") ("90%") ("-") ("-") (""))]

/-- Fixture for the `student_by_name` check: a single ingested student. -/
def c2Lines : List String :=
  [("header"),
   tabJoin (testRow ("\"alice\"") ("7/1/2021") ("75%") ("-") ("-") (""))]

/-- Fixture for the cross-term dedup check: the same name on two rows whose
end dates map to different terms, (21, Summer) and (21, Fall). -/
def c3Lines : List String :=
  [("header"),
   tabJoin (testRow ("\"alice\"") ("5/1/2021") ("75%") ("-") ("-") ("")),
   tabJoin (testRow ("\"alice\"") ("7/1/2021") ("90%") ("-") ("-") (""))]

/-- Fixture for the mastery/module check: a module field of length > 1
whose text contains neither "precalculus" nor "calculus". -/
def c6Lines : List String :=
  [("header"),
   tabJoin (testRow ("\"bob\"") ("7/1/2021") ("75%")
     ("Prep for College Algebra") ("-") (""))]

/-- A concrete empty cohort used by witnesses. -/
def wCohort : Cohort := { year := 21, season := 0, students := [] }

/-- The full specification of `Student.best_score`: on an empty attempt
list both forms fail; otherwise both return the value at the stable argmax
index — the first position achieving the maximum overall score — and the
subjects form pairs it with the subject vector at that same index. -/
def BestScoreSpec (s : Student) : Prop :=
  (s.scores = [] →
     s.best_score = .error ("ValueError") ∧
     s.best_score_subjects = .error ("ValueError")) ∧
  (s.scores ≠ [] → ∃ i m sub,
     s.scores.get? i = some m ∧
     s.subject_scores.get? i = some sub ∧
     s.best_score = .ok m ∧
     s.best_score_subjects = .ok (m, sub) ∧
     (∀ j x, s.scores.get? j = some x → x ≤ m) ∧
     (∀ j, j < i → ∀ x, s.scores.get? j = some x → x < m))

/-- A concrete student used by witnesses: the spec fixture scores
[88, 95, 72] with matching subject vectors. -/
def wStudent : Student :=
  { name := "eve", scores := [88, 95, 72], subject_scores := [[1], [2], [3]],
    module := -1, masteries := [], last_level := -1, last_class := -1 }

/-- Per-cohort student uniqueness: the cohort dict has unique term keys and
every cohort's student dict has unique name keys — each name corresponds to
at most one Student object per Cohort. -/
def ReporterInv (r : CohortReporter) : Prop :=
  (r.cohorts.map Prod.fst).Nodup ∧
  ∀ ys c, dictGet r.cohorts ys = some c → (c.students.map Prod.fst).Nodup

/-- The concrete reporter produced by ingesting the cross-term fixture. -/
def aliceSu : Student :=
  Student.mk ("alice") [75] [[50, 50, 50, 50, 50, 50, 50, 50, 50, 50, 50]]
    (-1) [] (-1) (-1)

/-- The fixture's Fall-cohort Student object for the same name. -/
def aliceFa : Student :=
  Student.mk ("alice") [90] [[50, 50, 50, 50, 50, 50, 50, 50, 50, 50, 50]]
    (-1) [] (-1) (-1)

/-- The reporter state after ingesting the cross-term fixture. -/
def c3Result : CohortReporter :=
  CohortReporter.mk
    [((21, 0), Cohort.mk 21 0 [(("alice"), aliceSu)]),
     ((21, 1), Cohort.mk 21 1 [(("alice"), aliceFa)])]
    [("alice"), ("alice")]
    [(21, 0), (21, 1)]

/-- Claim C1. The claim says `last_scores` returns each passing student's
most recent score, i.e. `scores[0]`. In the source, `Cohort.last_scores`
calls `best_score()` on each filtered student (contradicting its own
docstring and leaving `Student.last_score` unused there): after ingesting
one student with attempts scored 75 then 90 in file order, `last_scores`
returns `[90]` although the most recent score `scores[0]` is 75. -/
theorem last_scores_returns_best_scores_bug :
    (read_file c1Lines).map (fun r =>
      (dictGet r.cohorts (21, 1)).map (fun c =>
        (c.last_scores none none none,
         (dictGet c.students ("carol")).map Student.last_score)))
    = .ok (some (.ok [90], some (.ok 75))) := by rfl

/-- Claim C2. The claim says `student_by_name` returns the Student when the
name was ingested and `None` otherwise, never failing. In the source the
found-name path evaluates `self.cohorts[self.cohort_list[index]][name]`,
subscripting a `Cohort` object that defines no `__getitem__`: a `TypeError`
whenever the name IS present. The absent-name path does return `None`. -/
theorem student_by_name_type_error_bug :
    (read_file c2Lines).map (fun r =>
      (r.student_by_name ("alice"), r.student_by_name ("dave")))
    = .ok (.error ("TypeError: Cohort object is not subscriptable"), .ok none) := by
  rfl

/-- Claim C4. The claim says a text containing "calculus iii" classifies as
Calculus III (ID 7). In the source the `"calculus ii"` check precedes the
`"calculus iii"` check, and `"calculus iii"` contains `"calculus ii"` as a
substring, so `"Calculus III"` classifies as Calculus II (ID 6); only the
digit form `"Calculus 3"` reaches the Calculus III branch. The claim's
other examples hold as stated. -/
theorem class_group_calculus_iii_bug :
    class_group ("Calculus III") = 6 ∧
    class_group ("Calculus 3") = 7 ∧
    class_group ("AP Calculus II") = 6 ∧
    class_group ("College Algebra") = 1 ∧
    class_group ("Linear Algebra") = 0 ∧
    class_group ("no data available") = -1 :=
  ⟨rfl, rfl, rfl, rfl, rfl, rfl⟩

/-- Claim C3, counterexample. Ingesting two rows bearing the same name
whose end dates map to different terms — (21, Summer) and (21, Fall) —
creates TWO Student objects in two different Cohorts, each holding only its
own row's attempt, and appends the name to the global student list twice:
dedup in `read_file` is per `(term, name)`, not per name. -/
theorem read_file_cross_term_split_counterexample :
    (read_file c3Lines).map (fun r =>
      (r.student_list,
       r.cohort_list,
       (dictGet r.cohorts (21, 0)).map (fun c =>
         (dictGet c.students ("alice")).map Student.scores),
       (dictGet r.cohorts (21, 1)).map (fun c =>
         (dictGet c.students ("alice")).map Student.scores)))
    = .ok (["alice", "alice"], [(21, 0), (21, 1)],
           some (some [75]), some (some [90])) := by rfl

/-- Claim C6, counterexample. A single row whose module field is
"Prep for College Algebra" (length > 1, containing neither "precalculus"
nor "calculus") produces a Student with a recorded mastery pair and
`module = -1` (N/A): mastery recording is keyed on the module field being
non-trivial, not on the module being Precalculus or Calculus. -/
theorem mastery_without_module_counterexample :
    (read_file c6Lines).map (fun r =>
      (dictGet r.cohorts (21, 1)).map (fun c =>
        (dictGet c.students ("bob")).map (fun s => (s.module, s.masteries))))
    = .ok (some (some (-1, [(40, 80)]))) := by rfl

/-- Sequencing an ok value through Except bind. -/
theorem exceptBindOk {α β : Type} (a : α) (f : α → Except String β) :
    ((Except.ok a : Except String α) >>= f) = f a := rfl

/-- Sequencing an error through Except bind. -/
theorem exceptBindErr {α β : Type} (e : String) (f : α → Except String β) :
    ((Except.error e : Except String α) >>= f) = Except.error e := rfl

/-- An Except bind is ok exactly when both stages are. -/
theorem exceptBindOkIff {α β : Type} (x : Except String α)
    (f : α → Except String β) (b : β) :
    (x >>= f) = .ok b ↔ ∃ a, x = .ok a ∧ f a = .ok b := by
  cases x with
  | error e => simp [exceptBindErr]
  | ok a => simp [exceptBindOk]

/-- Claim C9: `int_to_cohort` inverts `cohort_to_int` for every year, every
season in 0..2 and every base year: the dense ordinal `3*(year-base)+season`
round-trips exactly. -/
theorem cohort_int_round_trip (year season base : Int)
    (h0 : 0 ≤ season) (h2 : season < 3) :
    int_to_cohort (cohort_to_int year season base) base = (year, season) := by
  unfold cohort_to_int int_to_cohort
  have hdiv : (3 * (year - base) + season) / 3 = year - base := by omega
  have hmod : (3 * (year - base) + season) % 3 = season := by omega
  rw [hdiv, hmod]
  simp only [Prod.mk.injEq]
  exact ⟨by omega, trivial⟩

/-- Witness for C9 at `(year, season, base) = (21, 2, 16)`. -/
theorem cohort_int_round_trip_witness :
    int_to_cohort (cohort_to_int 21 2 16) 16 = (21, 2) :=
  cohort_int_round_trip 21 2 16 (by decide) (by decide)

/-- Claim C7: for every well-formed date string with exactly three
slash-separated integer fields, `date_group` ignores the day and returns
Summer of `y mod 100` for months 1-5, Fall of `y mod 100` for months 6-8,
and Spring of `(y + 1) mod 100` for months 9-12. -/
theorem date_group_season_spec (date a b c : String) (m d y : Int)
    (hs : pySplit date '/' = [a, b, c])
    (ha : pyInt a = .ok m) (hb : pyInt b = .ok d) (hc : pyInt c = .ok y) :
    (1 ≤ m ∧ m ≤ 5 → date_group date = .ok (y % 100, 0)) ∧
    (6 ≤ m ∧ m ≤ 8 → date_group date = .ok (y % 100, 1)) ∧
    (9 ≤ m ∧ m ≤ 12 → date_group date = .ok ((y + 1) % 100, 2)) := by
  have hbase : date_group date =
      (if m ≤ 5 then .ok (y % 100, 0)
       else if m ≤ 8 then .ok (y % 100, 1)
       else .ok ((y + 1) % 100, 2)) := by
    unfold date_group
    rw [hs]
    simp only [ha, hb, hc, exceptBindOk]
  refine ⟨?_, ?_, ?_⟩
  · intro h
    rw [hbase, if_pos h.2]
  · intro h
    rw [hbase, if_neg (by omega), if_pos h.2]
  · intro h
    rw [hbase, if_neg (by omega), if_neg (by omega)]

/-- Witness for C7 at the spec's fixture date "10/02/2023": month 10 rolls
the year to Spring 24. -/
theorem date_group_season_spec_witness :
    date_group ("10/02/2023") = .ok (((2023 : Int) + 1) % 100, 2) :=
  (date_group_season_spec ("10/02/2023") ("10") ("02") ("2023") 10 2 2023
    rfl rfl rfl rfl).2.2 ⟨by decide, by decide⟩

/-- After a dict assignment the key is present. -/
theorem dictHas_insert_self {K V : Type} [DecidableEq K]
    (d : List (K × V)) (k : K) (v : V) :
    dictHas (dictInsert d k v) k = true := by
  induction d with
  | nil => simp [dictInsert, dictHas]
  | cons p rest ih =>
    by_cases hp : p.1 = k
    · simp [dictInsert, hp, dictHas]
    · simp [dictInsert, hp, dictHas, ih]

/-- Dict lookup after assignment: the assigned key reads the new value,
any other key reads as before. -/
theorem dictGet_insert {K V : Type} [DecidableEq K]
    (d : List (K × V)) (k : K) (v : V) (k2 : K) :
    dictGet (dictInsert d k v) k2 = if k2 = k then some v else dictGet d k2 := by
  induction d with
  | nil =>
    by_cases hk : k2 = k
    · simp [dictInsert, dictGet, hk]
    · have hk2 : ¬ k = k2 := fun h => hk h.symm
      simp [dictInsert, dictGet, hk, hk2]
  | cons p rest ih =>
    by_cases hp : p.1 = k
    · by_cases hk : k2 = k
      · simp [dictInsert, hp, dictGet, hk]
      · have hpk : ¬ p.1 = k2 := by rw [hp]; exact fun h => hk h.symm
        have hkk : ¬ k = k2 := fun h => hk h.symm
        simp [dictInsert, hp, dictGet, hk, hpk, hkk]
    · by_cases hpk : p.1 = k2
      · have hk : ¬ k2 = k := by rw [← hpk]; exact fun h => hp h
        simp [dictInsert, hp, dictGet, hpk, hk]
      · simp [dictInsert, hp, dictGet, hpk, ih]

/-- Claim C5: upserting is first-write-wins. A second upsert of an
already-present name, with any categorical arguments, is a no-op on the
whole cohort; in particular, after upserting a fresh name twice with
different arguments, the stored Student keeps the first call's module,
level and class, its empty attempt lists unchanged. -/
theorem upsert_student_first_write_wins (c : Cohort) (name : String)
    (m1 l1 k1 m2 l2 k2 : Int) :
    (dictHas c.students name = true →
       c.upsert_student name m2 l2 k2 = c) ∧
    (dictHas c.students name = false →
       (c.upsert_student name m1 l1 k1).upsert_student name m2 l2 k2
         = c.upsert_student name m1 l1 k1 ∧
       dictGet ((c.upsert_student name m1 l1 k1).upsert_student
           name m2 l2 k2).students name
         = some (Student.init name m1 l1 k1)) := by
  constructor
  · intro h
    simp [Cohort.upsert_student, h]
  · intro h
    have e1 : c.upsert_student name m1 l1 k1 = c.create_student name m1 l1 k1 := by
      unfold Cohort.upsert_student
      simp [h]
    have h1 : dictHas (c.create_student name m1 l1 k1).students name = true := by
      unfold Cohort.create_student
      exact dictHas_insert_self c.students name (Student.init name m1 l1 k1)
    have e2 : (c.upsert_student name m1 l1 k1).upsert_student name m2 l2 k2
        = c.upsert_student name m1 l1 k1 := by
      rw [e1]
      unfold Cohort.upsert_student
      simp [h1]
    refine ⟨e2, ?_⟩
    rw [e2, e1]
    unfold Cohort.create_student
    simp [dictGet_insert]

/-- Witness for C5: a concrete empty cohort, first upsert with arguments
(0, 1, 2), second with (1, 0, 5); the stored Student keeps the first. -/
theorem upsert_student_first_write_wins_witness :
    (wCohort.upsert_student ("dana") 0 1 2).upsert_student ("dana") 1 0 5
      = wCohort.upsert_student ("dana") 0 1 2 ∧
    dictGet ((wCohort.upsert_student ("dana") 0 1 2).upsert_student
        ("dana") 1 0 5).students ("dana")
      = some (Student.init ("dana") 0 1 2) :=
  (upsert_student_first_write_wins wCohort ("dana") 0 1 2 1 0 5).2 rfl

/-- The initial element bounds a left max-fold from below. -/
theorem le_foldl_max_init (t : List Int) (a : Int) : a ≤ t.foldl max a := by
  induction t generalizing a with
  | nil => simp
  | cons h tl ih =>
    simp only [List.foldl_cons]
    exact le_trans (le_max_left a h) (ih (max a h))

/-- Every member bounds a left max-fold from below. -/
theorem mem_le_foldl_max (t : List Int) (x : Int) :
    x ∈ t → ∀ a : Int, x ≤ t.foldl max a := by
  induction t with
  | nil => intro hx; cases hx
  | cons h tl ih =>
    intro hx a
    simp only [List.foldl_cons]
    rcases List.mem_cons.mp hx with rfl | hx2
    · exact le_trans (le_max_right a x) (le_foldl_max_init tl (max a x))
    · exact ih hx2 (max a h)

/-- A left max-fold returns its initial element or a member. -/
theorem foldl_max_mem (t : List Int) (a : Int) :
    t.foldl max a = a ∨ t.foldl max a ∈ t := by
  induction t generalizing a with
  | nil => left; rfl
  | cons h tl ih =>
    simp only [List.foldl_cons]
    rcases ih (max a h) with heq | hmem
    · rcases max_choice a h with h1 | h1
      · left; rw [heq, h1]
      · right; rw [heq, h1]; exact List.mem_cons_self h tl
    · right; exact List.mem_cons_of_mem h hmem

/-- When `pyMax` succeeds, its result is a member and an upper bound —
exactly Python `max`. -/
theorem pyMax_ok_spec (l : List Int) (m : Int) (h : pyMax l = .ok m) :
    m ∈ l ∧ ∀ x ∈ l, x ≤ m := by
  match l with
  | [] => simp [pyMax] at h
  | a :: t =>
    simp only [pyMax, Except.ok.injEq] at h
    subst h
    constructor
    · rcases foldl_max_mem t a with heq | hmem
      · rw [heq]; exact List.mem_cons_self a t
      · exact List.mem_cons_of_mem a hmem
    · intro x hx
      rcases List.mem_cons.mp hx with rfl | hx2
      · exact le_foldl_max_init t x
      · exact mem_le_foldl_max t x hx2 a

/-- Python `list.index`: for a member, `indexOf` is in range, reads back the
element, and every earlier position holds a different element. -/
theorem indexOf_int_spec (l : List Int) (a : Int) (h : a ∈ l) :
    l.indexOf a < l.length ∧ l.get? (l.indexOf a) = some a ∧
    ∀ j, j < l.indexOf a → ∀ x, l.get? j = some x → x ≠ a := by
  induction l with
  | nil => cases h
  | cons b t ih =>
    by_cases hba : b == a
    · have hb : b = a := by exact eq_of_beq hba
      rw [List.indexOf_cons, hba]
      simp only [cond_true]
      refine ⟨by simp, by simp [hb], ?_⟩
      intro j hj
      omega
    · have hb : b ≠ a := by
        intro hh
        rw [hh] at hba
        simp at hba
      have hat : a ∈ t := by
        rcases List.mem_cons.mp h with rfl | h2
        · exact absurd rfl hb
        · exact h2
      obtain ⟨ih1, ih2, ih3⟩ := ih hat
      rw [List.indexOf_cons]
      have hbb : (b == a) = false := by
        simp [hba]
      rw [hbb]
      simp only [cond_false]
      refine ⟨by simp; omega, by simpa using ih2, ?_⟩
      intro j hj x hx
      match j with
      | 0 =>
        simp at hx
        rw [← hx]
        exact hb
      | j' + 1 =>
        rw [List.get?_cons_succ] at hx
        exact ih3 j' (by omega) x hx

/-- Claim C8: `best_score` returns the attempt with maximum overall score,
ties resolved by first occurrence in insertion order (a stable argmax, so
the subjects form returns the subject vector of that same earliest maximal
attempt), and fails exactly when no attempts are recorded. -/
theorem best_score_stable_argmax (s : Student)
    (hlen : s.scores.length = s.subject_scores.length) : BestScoreSpec s := by
  constructor
  · intro h
    have h1 : s.best_score = .error ("ValueError") := by
      unfold Student.best_score
      rw [h]
      rfl
    have h2 : s.best_score_subjects = .error ("ValueError") := by
      unfold Student.best_score_subjects
      rw [h]
      rfl
    exact ⟨h1, h2⟩
  · intro hne
    obtain ⟨m, hm⟩ : ∃ m, pyMax s.scores = .ok m := by
      rcases hl : s.scores with _ | ⟨a, t⟩
      · exact absurd hl hne
      · exact ⟨t.foldl max a, by rfl⟩
    obtain ⟨hmem, hle⟩ := pyMax_ok_spec s.scores m hm
    obtain ⟨hilt, hgeti, hbefore⟩ := indexOf_int_spec s.scores m hmem
    have hi2 : s.scores.indexOf m < s.subject_scores.length := by omega
    obtain ⟨sub, hsub⟩ :
        ∃ sub, s.subject_scores.get? (s.scores.indexOf m) = some sub := by
      cases hq : s.subject_scores.get? (s.scores.indexOf m) with
      | none => rw [List.get?_eq_none] at hq; omega
      | some v => exact ⟨v, rfl⟩
    refine ⟨s.scores.indexOf m, m, sub, hgeti, hsub, hm, ?_, ?_, ?_⟩
    · unfold Student.best_score_subjects
      rw [hm, exceptBindOk]
      simp only []
      rw [hgeti, hsub]
    · intro j x hx
      exact hle x (List.get?_mem hx)
    · intro j hj x hx
      exact lt_of_le_of_ne (hle x (List.get?_mem hx)) (hbefore j hj x hx)

/-- Witness for C8 at the concrete student with scores [88, 95, 72]. -/
theorem best_score_stable_argmax_witness : BestScoreSpec wStudent :=
  best_score_stable_argmax wStudent rfl

/-- Claim C10: `log_attempt` appends exactly one element to both `scores`
and `subject_scores` (and no operation removes elements), so equal lengths
are preserved, and under that invariant the argmax index computed from
`scores` by `best_score(subjects=True)` is a valid index into
`subject_scores`. -/
theorem log_attempt_length_invariant (s : Student) (score : Int)
    (subj : List Int) (mastery : Option (Int × Int))
    (h : s.scores.length = s.subject_scores.length) :
    (s.log_attempt score subj mastery).scores.length = s.scores.length + 1 ∧
    (s.log_attempt score subj mastery).subject_scores.length
      = s.subject_scores.length + 1 ∧
    (s.log_attempt score subj mastery).scores.length
      = (s.log_attempt score subj mastery).subject_scores.length ∧
    ∀ m, pyMax s.scores = .ok m →
      s.scores.indexOf m < s.subject_scores.length := by
  refine ⟨?_, ?_, ?_, ?_⟩
  · simp [Student.log_attempt]
  · simp [Student.log_attempt]
  · simp [Student.log_attempt, h]
  · intro m hm
    have hmem := (pyMax_ok_spec s.scores m hm).1
    have hlt := (indexOf_int_spec s.scores m hmem).1
    omega

/-- Witness for C10 at the concrete student with scores [88, 95, 72],
logging one more attempt. -/
theorem log_attempt_length_invariant_witness :
    (wStudent.log_attempt 50 [9] none).scores.length
      = wStudent.scores.length + 1 ∧
    (wStudent.log_attempt 50 [9] none).subject_scores.length
      = wStudent.subject_scores.length + 1 ∧
    (wStudent.log_attempt 50 [9] none).scores.length
      = (wStudent.log_attempt 50 [9] none).subject_scores.length ∧
    ∀ m, pyMax wStudent.scores = .ok m →
      wStudent.scores.indexOf m < wStudent.subject_scores.length :=
  log_attempt_length_invariant wStudent 50 [9] none rfl

/-- Claim C6 as amended: in the ingestion of a row, a mastery pair is
recorded exactly when the module field (field 35) has length > 1 — not
when the module resolved to Precalculus or Calculus. (The counterexample
above shows a Student with a recorded mastery pair and module N/A.) -/
theorem mastery_recorded_iff_module_field_nontrivial (row : List String)
    (f35 : String) (m : Int) (mast : Option (Int × Int))
    (h35 : row.get? 35 = some f35)
    (h : parseModuleMastery row = .ok (m, mast)) :
    mast.isSome = decide (f35.length > 1) := by
  unfold parseModuleMastery at h
  rw [show pyIndex row 35 = .ok f35 from by unfold pyIndex; rw [h35]] at h
  rw [exceptBindOk] at h
  by_cases hlen : f35.length > 1
  · rw [if_pos hlen] at h
    dsimp only [] at h
    obtain ⟨f36, h36, h⟩ := (exceptBindOkIff _ _ _).mp h
    obtain ⟨f37, h37, h⟩ := (exceptBindOkIff _ _ _).mp h
    obtain ⟨mi, hmi, h⟩ := (exceptBindOkIff _ _ _).mp h
    obtain ⟨mf, hmf, h⟩ := (exceptBindOkIff _ _ _).mp h
    simp only [Except.ok.injEq, Prod.mk.injEq] at h
    rw [← h.2]
    simp [hlen]
  · rw [if_neg hlen] at h
    simp only [Except.ok.injEq, Prod.mk.injEq] at h
    rw [← h.2]
    simp [hlen]

/-- Witness for the amended C6 at the counterexample row: the module field
"Prep for College Algebra" has length > 1 and a mastery pair is recorded. -/
theorem mastery_recorded_iff_module_field_nontrivial_witness :
    (some ((40 : Int), (80 : Int))).isSome
      = decide (("Prep for College Algebra").length > 1) :=
  mastery_recorded_iff_module_field_nontrivial
    (testRow ("\"bob\"") ("7/1/2021") ("75%") ("Prep for College Algebra")
      ("-") (""))
    ("Prep for College Algebra") (-1) (some (40, 80)) rfl rfl

/-- An absent dict key is not among the keys. -/
theorem dictHas_false_not_mem {K V : Type} [DecidableEq K]
    (d : List (K × V)) (k : K) (h : dictHas d k = false) :
    k ∉ d.map Prod.fst := by
  induction d with
  | nil => simp
  | cons p rest ih =>
    simp only [dictHas] at h
    by_cases hp : p.1 = k
    · rw [if_pos hp] at h
      exact absurd h (by simp)
    · rw [if_neg hp] at h
      intro hmem
      rcases List.mem_cons.mp hmem with heq | hm
      · exact hp heq.symm
      · exact ih h hm

/-- A successful dict lookup implies membership. -/
theorem dictGet_some_has {K V : Type} [DecidableEq K]
    (d : List (K × V)) (k : K) (v : V) (h : dictGet d k = some v) :
    dictHas d k = true := by
  induction d with
  | nil => simp [dictGet] at h
  | cons p rest ih =>
    simp only [dictGet] at h
    simp only [dictHas]
    by_cases hp : p.1 = k
    · rw [if_pos hp]
    · rw [if_neg hp] at h ⊢
      exact ih h

/-- Assigning a present key leaves the key sequence unchanged. -/
theorem keys_dictInsert_has {K V : Type} [DecidableEq K]
    (d : List (K × V)) (k : K) (v : V) (h : dictHas d k = true) :
    (dictInsert d k v).map Prod.fst = d.map Prod.fst := by
  induction d with
  | nil => simp [dictHas] at h
  | cons p rest ih =>
    simp only [dictHas] at h
    simp only [dictInsert]
    by_cases hp : p.1 = k
    · rw [if_pos hp]
      simp [hp]
    · rw [if_neg hp] at h
      rw [if_neg hp]
      simp [ih h]

/-- Assigning an absent key appends it to the key sequence. -/
theorem keys_dictInsert_not_has {K V : Type} [DecidableEq K]
    (d : List (K × V)) (k : K) (v : V) (h : dictHas d k = false) :
    (dictInsert d k v).map Prod.fst = d.map Prod.fst ++ [k] := by
  induction d with
  | nil => simp [dictInsert]
  | cons p rest ih =>
    simp only [dictHas] at h
    simp only [dictInsert]
    by_cases hp : p.1 = k
    · rw [if_pos hp] at h
      exact absurd h (by simp)
    · rw [if_neg hp] at h
      rw [if_neg hp]
      simp [ih h]

/-- Dict assignment preserves key uniqueness. -/
theorem keys_nodup_insert {K V : Type} [DecidableEq K]
    (d : List (K × V)) (k : K) (v : V)
    (h : (d.map Prod.fst).Nodup) :
    ((dictInsert d k v).map Prod.fst).Nodup := by
  cases hh : dictHas d k with
  | true =>
    rw [keys_dictInsert_has d k v hh]
    exact h
  | false =>
    rw [keys_dictInsert_not_has d k v hh]
    have hnm := dictHas_false_not_mem d k hh
    simp [List.nodup_append, h, hnm]

/-- The cohort-creation step preserves the uniqueness invariant. -/
theorem ensureCohort_inv (r : CohortReporter) (ys : Int × Int)
    (h : ReporterInv r) : ReporterInv (ensureCohort r ys) := by
  unfold ensureCohort
  cases hh : dictHas r.cohorts ys with
  | true =>
    simp only [hh, if_true]
    exact h
  | false =>
    simp only [hh, Bool.false_eq_true, if_false]
    constructor
    · exact keys_nodup_insert _ _ _ h.1
    · intro ys2 c hc
      rw [dictGet_insert] at hc
      by_cases hy : ys2 = ys
      · rw [if_pos hy] at hc
        simp only [Option.some.injEq] at hc
        rw [← hc]
        simp
      · rw [if_neg hy] at hc
        exact h.2 ys2 c hc

/-- Interpretation of a successful `update_student`: the name was present
and the student dict is re-assigned at that name with the logged attempt. -/
theorem update_student_students (c : Cohort) (name : String) (score : Int)
    (subjects : List Int) (mastery : Option (Int × Int)) (c3 : Cohort)
    (h : c.update_student name score subjects mastery = .ok c3) :
    ∃ s, dictGet c.students name = some s ∧
      c3.students = dictInsert c.students name
        (s.log_attempt score subjects mastery) := by
  unfold Cohort.update_student at h
  cases hg : dictGet c.students name with
  | none =>
    rw [hg] at h
    simp at h
  | some s =>
    rw [hg] at h
    dsimp only [] at h
    simp only [Except.ok.injEq] at h
    exact ⟨s, rfl, by rw [← h]⟩

/-- The routing step of a row preserves the uniqueness invariant. -/
theorem routeAttempt_inv (r1 : CohortReporter) (ys : Int × Int) (name : String)
    (score : Int) (subjects : List Int) (module : Int)
    (mastery : Option (Int × Int)) (cls level : Int) (r2 : CohortReporter)
    (h : ReporterInv r1)
    (hr : routeAttempt r1 ys name score subjects module mastery cls level
            = .ok r2) :
    ReporterInv r2 := by
  unfold routeAttempt at hr
  cases hg : dictGet r1.cohorts ys with
  | none =>
    rw [hg] at hr
    exact Except.noConfusion hr
  | some c =>
    rw [hg] at hr
    dsimp only [] at hr
    rw [exceptBindOk] at hr
    have hck : dictHas r1.cohorts ys = true := dictGet_some_has _ _ _ hg
    have hcs : (c.students.map Prod.fst).Nodup := h.2 ys c hg
    by_cases hhas : dictHas c.students name = true
    · rw [if_pos hhas] at hr
      dsimp only [] at hr
      obtain ⟨c3, hup, hr⟩ := (exceptBindOkIff _ _ _).mp hr
      obtain ⟨s, hgs, hc3s⟩ :=
        update_student_students c name score subjects mastery c3 hup
      simp only [Except.ok.injEq] at hr
      rw [← hr]
      constructor
      · dsimp only []
        rw [keys_dictInsert_has _ _ _ hck]
        exact h.1
      · intro ys2 c2 hc2
        dsimp only [] at hc2
        rw [dictGet_insert] at hc2
        by_cases hy : ys2 = ys
        · rw [if_pos hy] at hc2
          simp only [Option.some.injEq] at hc2
          rw [← hc2, hc3s]
          exact keys_nodup_insert _ _ _ hcs
        · rw [if_neg hy] at hc2
          exact h.2 ys2 c2 hc2
    · rw [if_neg hhas] at hr
      dsimp only [] at hr
      obtain ⟨c3, hup, hr⟩ := (exceptBindOkIff _ _ _).mp hr
      obtain ⟨s, hgs, hc3s⟩ :=
        update_student_students (c.create_student name module level cls)
          name score subjects mastery c3 hup
      simp only [Except.ok.injEq] at hr
      rw [← hr]
      constructor
      · dsimp only []
        rw [keys_dictInsert_has _ _ _ hck]
        exact h.1
      · intro ys2 c2 hc2
        dsimp only [] at hc2
        rw [dictGet_insert] at hc2
        by_cases hy : ys2 = ys
        · rw [if_pos hy] at hc2
          simp only [Option.some.injEq] at hc2
          rw [← hc2, hc3s]
          apply keys_nodup_insert
          unfold Cohort.create_student
          dsimp only []
          exact keys_nodup_insert _ _ _ hcs
        · rw [if_neg hy] at hc2
          exact h.2 ys2 c2 hc2

/-- Processing one data row preserves the uniqueness invariant. -/
theorem processRow_inv (r : CohortReporter) (row : List String)
    (r2 : CohortReporter) (h : ReporterInv r)
    (hr : processRow r row = .ok r2) : ReporterInv r2 := by
  unfold processRow at hr
  obtain ⟨f8, h8, hr⟩ := (exceptBindOkIff _ _ _).mp hr
  obtain ⟨ys, hys, hr⟩ := (exceptBindOkIff _ _ _).mp hr
  dsimp only [] at hr
  obtain ⟨f0, h0, hr⟩ := (exceptBindOkIff _ _ _).mp hr
  obtain ⟨f12, h12, hr⟩ := (exceptBindOkIff _ _ _).mp hr
  obtain ⟨score, hsc, hr⟩ := (exceptBindOkIff _ _ _).mp hr
  obtain ⟨subjects, hsub, hr⟩ := (exceptBindOkIff _ _ _).mp hr
  obtain ⟨mm, hmm, hr⟩ := (exceptBindOkIff _ _ _).mp hr
  obtain ⟨cl, hcl, hr⟩ := (exceptBindOkIff _ _ _).mp hr
  exact routeAttempt_inv _ _ _ _ _ _ _ _ _ _ (ensureCohort_inv r ys h) hr

/-- Processing one line preserves the uniqueness invariant. -/
theorem processLine_inv (r : CohortReporter) (line : String)
    (r2 : CohortReporter) (h : ReporterInv r)
    (hl : processLine r line = .ok r2) : ReporterInv r2 := by
  unfold processLine at hl
  cases hd : line.data with
  | nil =>
    rw [hd] at hl
    exact Except.noConfusion hl
  | cons ch t =>
    rw [hd] at hl
    dsimp only [] at hl
    by_cases hch : ch ≠ '"'
    · rw [if_pos hch] at hl
      simp only [Except.ok.injEq] at hl
      rw [← hl]
      exact h
    · rw [if_neg hch] at hl
      exact processRow_inv r _ r2 h hl

/-- The line fold of `read_file` preserves the uniqueness invariant. -/
theorem foldlM_processLine_inv (l : List String) :
    ∀ b b2 : CohortReporter, ReporterInv b →
      l.foldlM processLine b = .ok b2 → ReporterInv b2 := by
  induction l with
  | nil =>
    intro b b2 hb hf
    simp only [List.foldlM_nil] at hf
    simp only [pure, Except.pure, Except.ok.injEq] at hf
    rw [← hf]
    exact hb
  | cons a t ih =>
    intro b b2 hb hf
    rw [List.foldlM_cons] at hf
    obtain ⟨b1, h1, h2⟩ := (exceptBindOkIff _ _ _).mp hf
    exact ih b1 b2 (processLine_inv b a b1 hb h1) h2

/-- Claim C3 as amended: ingestion deduplicates per (term, name), so each
distinct student name corresponds to AT MOST ONE Student object per Cohort
(unique cohort keys and, within every cohort, unique student names); rows
whose end-date maps to a different Term create a separate Student in that
Term's Cohort rather than being merged into the first-encountered row's
Student (see the counterexample). -/
theorem read_file_per_cohort_dedup (lines : List String) (r : CohortReporter)
    (h : read_file lines = .ok r) : ReporterInv r := by
  have hempty : ReporterInv emptyReporter := by
    constructor
    · simp [emptyReporter]
    · intro ys c hc
      simp [emptyReporter, dictGet] at hc
  cases lines with
  | nil =>
    unfold read_file at h
    simp only [Except.ok.injEq] at h
    rw [← h]
    exact hempty
  | cons a rest =>
    unfold read_file at h
    exact foldlM_processLine_inv rest emptyReporter r hempty h

/-- Witness for the amended C3 at the concrete cross-term ingestion. -/
theorem read_file_per_cohort_dedup_witness : ReporterInv c3Result :=
  read_file_per_cohort_dedup c3Lines c3Result (by rfl)
